import Mathlib

/-!
Shallow embedding of the `vomitorium` directory aggregator
(`src/vomitorium.js` and `src/unnamed/part_000`).

Modelling conventions:
* Paths are represented as strings relative to the invocation's working
  directory (the default `scan: "."` case), so `path.relative(process.cwd(), p)`
  is `p` itself and `path.basename` is the last `/`-separated component.
  `path.join` on such paths is plain concatenation with a `/` separator,
  except that joining onto `""` or `"."` yields the entry name alone,
  matching Node's normalisation of `path.join(".", name)`.
* The file system is a finite tree: a node is a file with text content, a
  readable directory with a list of named children, or a directory whose
  entries cannot be read (`fs.readdir` rejects), used to model subtree read
  errors.  Dirent names are the strings attached to children.
* The asynchronous traversal (`Promise.all` over the children) appends
  discrete blocks to the output file in nondeterministic order; the
  embedding fixes the source list order, which is one admissible
  interleaving, and represents the output as the list of appended blocks.
* `process.exit`, `console` logging and the output file are modelled in
  `RunResult`: the exit code, the error messages printed, and the output
  file content (`none` when the file was never created/written).
-/

namespace Vomitorium

/-- Configuration record after CLI/config-file resolution (spec section 3). -/
structure Config where
  includeDirectories : List String
  excludePatterns : List String
  includeExtensions : List String
  showExcluded : Bool
  showSkipped : Bool

/-- Embeds `path.join(directoryPath, name)` for cwd-relative paths:
`path.join(".", n) = n`, `path.join("", n) = n`, otherwise the pieces are
joined with a single separator. -/
def joinPath (directoryPath name : String) : String :=
  if directoryPath = "" ∨ directoryPath = "." then name
  else directoryPath ++ "/" ++ name

/-- Accumulator pass for `basename`: keeps the characters seen since the
last separator. -/
def basenameAux : List Char → List Char → List Char
  | current, [] => current
  | current, c :: cs =>
      if c = '/' then basenameAux [] cs else basenameAux (current ++ [c]) cs

/-- Embeds `path.basename`: the last `/`-separated component of the path
(the embedded paths never carry trailing separators). -/
def basename (filePath : String) : String :=
  String.mk (basenameAux [] filePath.toList)

/-- Embeds JavaScript `String.prototype.includes`: substring containment. -/
def containsSub (s pat : String) : Bool :=
  decide (pat.toList <:+: s.toList)

/-- Embeds `path.extname(name)` on a dirent name: the suffix from the last
dot, or `""` when there is no dot or the only dot is the leading character
(e.g. `".git"`).  Node's special cases for the names `"."` and `".."` are
not modelled, as they never occur as directory-entry names. -/
def extname (name : String) : String :=
  let reversed := name.toList.reverse
  let afterDot := reversed.takeWhile (fun c => c ≠ '.')
  match reversed.dropWhile (fun c => c ≠ '.') with
  | [] => ""
  | [_] => ""
  | _ :: _ :: _ => String.mk ('.' :: afterDot.reverse)

/-- Embeds `isExcluded` (identical in both sources): some exclude pattern is
a substring of the cwd-relative path, or equals the basename exactly. -/
def isExcluded (excludePatterns : List String) (filePath : String) : Bool :=
  excludePatterns.any fun excludePattern =>
    containsSub filePath excludePattern || basename filePath == excludePattern

/-- A file-system node: a text file, a readable directory with named
children, or a directory whose entries cannot be read. -/
inductive FSNode where
  | file (content : String) : FSNode
  | dir (entries : List (String × FSNode)) : FSNode
  | unreadableDir : FSNode

/-- One block appended to the output file: either a file's content block
(`appendFileToOutput`) or a skip record (`logSkippedFile`). -/
inductive Block where
  | content (relPath : String) (text : String) : Block
  | skip (relPath : String) (reason : String) : Block

/-- The cwd-relative path named in a block's header. -/
def Block.relPath : Block → String
  | Block.content p _ => p
  | Block.skip p _ => p

/-- Text appended for one block: the template literals of
`appendFileToOutput` and `logSkippedFile`. -/
def renderBlock : Block → String
  | Block.content relPath text =>
      "\n\n--- File: " ++ relPath ++ " ---\n\n" ++ text ++ "\n"
  | Block.skip relPath reason =>
      "\n\n--- File: " ++ relPath ++ " ---\n(" ++ reason ++ ")\n"

/-- Embeds a single `fs.appendFile` to the output file. -/
def appendBlock (out : String) (b : Block) : String :=
  out ++ renderBlock b

/-- Output file content after all appends, starting from the empty file
written by `fs.writeFile(outputFilePath, "")`. -/
def renderBlocks (blocks : List Block) : String :=
  blocks.foldl appendBlock ""

/-- Successive contents of the output file: empty at creation, then one
state per append. -/
def outputHistory (blocks : List Block) : List String :=
  blocks.scanl appendBlock ""

/-- Size bound used for the termination of the mutual traversal. -/
theorem sizeOf_snd_lt (entry : String × FSNode) : sizeOf entry.2 < sizeOf entry := by
  obtain ⟨name, node⟩ := entry
  simp only [Prod.mk.sizeOf_spec]
  omega

mutual

/-- Embeds `traverseDirectoryRecursively`: read the entries and process each
one; an `fs.readdir` failure is caught and logged and the subtree
contributes nothing (the catch block only calls `console.error`). -/
def traverseDirectoryRecursively (cfg : Config) (directoryPath : String)
    (node : FSNode) : List Block :=
  match node with
  | FSNode.dir directoryEntries => traverseEntries cfg directoryPath directoryEntries
  | _ => []
termination_by sizeOf node

/-- Embeds the `Promise.all(directoryEntries.map(...))` loop, sequentialised
in source order: the concatenation of every entry's blocks. -/
def traverseEntries (cfg : Config) (directoryPath : String)
    (entries : List (String × FSNode)) : List Block :=
  match entries with
  | [] => []
  | entry :: rest =>
      processEntry cfg directoryPath entry ++ traverseEntries cfg directoryPath rest
termination_by sizeOf entries

/-- Embeds the per-entry arrow function inside `traverseDirectoryRecursively`:
exclusion check, directory descent guarded by `includeDirectories`,
extension filter, and content append. -/
def processEntry (cfg : Config) (directoryPath : String)
    (entry : String × FSNode) : List Block :=
  let entryPath := joinPath directoryPath entry.1
  if isExcluded cfg.excludePatterns entryPath then
    if cfg.showExcluded then [Block.skip entryPath "Excluded"] else []
  else
    match entry.2 with
    | FSNode.dir _ | FSNode.unreadableDir =>
        if cfg.includeDirectories.isEmpty
            || cfg.includeDirectories.any
                (fun includeDirectory => containsSub entryPath includeDirectory) then
          traverseDirectoryRecursively cfg entryPath entry.2
        else
          []
    | FSNode.file content =>
        let extension := extname entry.1
        if !(cfg.includeExtensions.contains extension) then
          if cfg.showSkipped then
            [Block.skip entryPath "Skipped (non-matching extension)"]
          else []
        else
          [Block.content entryPath content]
termination_by sizeOf entry
decreasing_by
  all_goals exact sizeOf_snd_lt entry

end

/-- Outcome of one run: exit code, error messages printed, and the output
file content (`none` when the file was never created or written). -/
structure RunResult where
  exitCode : Nat
  errorMessages : List String
  output : Option String

/-- Embeds `main` of both sources: `fs.access` on the scan root (modelled by
whether the root node exists) decides between exiting with code 1 before the
output file is touched, and truncating the output file then traversing. -/
def main (cfg : Config) (inputDirectory : String) (root : Option FSNode) :
    RunResult :=
  match root with
  | none =>
      ⟨1,
       ["Error: Directory \"" ++ inputDirectory
          ++ "\" does not exist or is inaccessible."],
       none⟩
  | some node =>
      ⟨0, [],
       some (renderBlocks (traverseDirectoryRecursively cfg inputDirectory node))⟩

/-- Built-in default `exclude` list shared by both sources. -/
def vomitoriumDefaultExclude : List String :=
  ["node_modules", ".git", "dist", "build"]

/-- Built-in default `excludeFiles` list, present only in
`src/unnamed/part_000`. -/
def part000DefaultExcludeFiles : List String :=
  ["package.json", "package-lock.json"]

/-- Embeds `src/vomitorium.js`'s `excludePatterns` resolution (default
config, no config file): `options.exclude || config.exclude`. -/
def vomitoriumExcludePatterns (cliExclude : Option (List String)) : List String :=
  match cliExclude with
  | some patterns => patterns
  | none => vomitoriumDefaultExclude

/-- Embeds `src/unnamed/part_000`'s `excludePatterns` resolution (default
config, no config file):
`options.exclude || [...config.exclude, ...config.excludeFiles]`. -/
def part000ExcludePatterns (cliExclude : Option (List String)) : List String :=
  match cliExclude with
  | some patterns => patterns
  | none => vomitoriumDefaultExclude ++ part000DefaultExcludeFiles

/-- The fully-default configuration of `src/vomitorium.js`. -/
def defaultConfig : Config :=
  ⟨[], vomitoriumDefaultExclude, [".js", ".ts", ".json"], true, true⟩

/-!
Explicit-cwd embedding.  The traversal above identifies entry paths with
their cwd-relative form, which is exact for `src/vomitorium.js` (its `main`
passes the raw, cwd-relative scan directory).  `src/unnamed/part_000`'s
`main` instead resolves the scan directory to an absolute path
(`path.resolve(scanDirectory)`, part_000 line 211) before traversing, so
its `entryPath.includes(includeDirectory)` descent test sees absolute
paths.  To compare the two versions faithfully, the definitions below
repeat the (textually identical) classifier and traversal with the working
directory explicit, so that absolute and relative entry paths are
distinguished and `path.relative(process.cwd(), ...)` does real work.
-/

/-- Embeds `path.relative(process.cwd(), filePath)` for the path forms the
programs build: a path below `cwd` is stripped of the leading
`cwd ++ "/"`; any other (already cwd-relative) path resolves to itself. -/
def relativeTo (cwd filePath : String) : String :=
  if (cwd ++ "/").toList <+: filePath.toList then
    String.mk (filePath.toList.drop (cwd ++ "/").toList.length)
  else filePath

/-- The classifier with the working directory explicit, as in both sources:
each pattern is tested as a substring of
`path.relative(process.cwd(), filePath)` and against
`path.basename(filePath)`. -/
def isExcludedAt (cwd : String) (excludePatterns : List String)
    (filePath : String) : Bool :=
  excludePatterns.any fun excludePattern =>
    containsSub (relativeTo cwd filePath) excludePattern
      || basename filePath == excludePattern

mutual

/-- The traversal with the working directory explicit (code identical in
both sources); the versions differ only in the `directoryPath` their
`main` hands over. -/
def traverseDirectoryRecursivelyAt (cwd : String) (cfg : Config)
    (directoryPath : String) (node : FSNode) : List Block :=
  match node with
  | FSNode.dir directoryEntries =>
      traverseEntriesAt cwd cfg directoryPath directoryEntries
  | _ => []
termination_by sizeOf node

/-- Entry loop of the explicit-cwd traversal. -/
def traverseEntriesAt (cwd : String) (cfg : Config) (directoryPath : String)
    (entries : List (String × FSNode)) : List Block :=
  match entries with
  | [] => []
  | entry :: rest =>
      processEntryAt cwd cfg directoryPath entry
        ++ traverseEntriesAt cwd cfg directoryPath rest
termination_by sizeOf entries

/-- Per-entry handler of the explicit-cwd traversal: the descent test uses
the raw `entryPath` (`entryPath.includes(includeDirectory)`), while skip
and content blocks carry `path.relative(process.cwd(), entryPath)`. -/
def processEntryAt (cwd : String) (cfg : Config) (directoryPath : String)
    (entry : String × FSNode) : List Block :=
  let entryPath := joinPath directoryPath entry.1
  if isExcludedAt cwd cfg.excludePatterns entryPath then
    if cfg.showExcluded then
      [Block.skip (relativeTo cwd entryPath) "Excluded"]
    else []
  else
    match entry.2 with
    | FSNode.dir _ | FSNode.unreadableDir =>
        if cfg.includeDirectories.isEmpty
            || cfg.includeDirectories.any
                (fun includeDirectory => containsSub entryPath includeDirectory) then
          traverseDirectoryRecursivelyAt cwd cfg entryPath entry.2
        else
          []
    | FSNode.file content =>
        let extension := extname entry.1
        if !(cfg.includeExtensions.contains extension) then
          if cfg.showSkipped then
            [Block.skip (relativeTo cwd entryPath) "Skipped (non-matching extension)"]
          else []
        else
          [Block.content (relativeTo cwd entryPath) content]
termination_by sizeOf entry
decreasing_by
  all_goals exact sizeOf_snd_lt entry

end

/-- Embeds `path.resolve(scanDirectory)` (part_000 line 211) for a
cwd-relative scan directory: `"."` resolves to the working directory, any
other relative name resolves below it. -/
def resolvePath (cwd scanDirectory : String) : String :=
  if scanDirectory = "." then cwd else cwd ++ "/" ++ scanDirectory

/-- The traversal as launched by `src/vomitorium.js`'s `main`: the raw
`inputDirectory` string is passed straight through. -/
def vomitoriumTraversal (cwd : String) (cfg : Config) (scanDirectory : String)
    (root : FSNode) : List Block :=
  traverseDirectoryRecursivelyAt cwd cfg scanDirectory root

/-- The traversal as launched by `src/unnamed/part_000`'s `main`: the scan
directory is first resolved to an absolute path. -/
def part000Traversal (cwd : String) (cfg : Config) (scanDirectory : String)
    (root : FSNode) : List Block :=
  traverseDirectoryRecursivelyAt cwd cfg (resolvePath cwd scanDirectory) root

/-- Well-formed file-system trees: every dirent name is nonempty, is not
`"."`, and does not start with the separator — guarantees `fs.readdir`
provides. -/
inductive GoodNode : FSNode → Prop where
  | file (content : String) : GoodNode (FSNode.file content)
  | unreadable : GoodNode FSNode.unreadableDir
  | dir (entries : List (String × FSNode))
      (hnames : ∀ e ∈ entries,
        e.1 ≠ "" ∧ e.1 ≠ "." ∧ e.1.toList.head? ≠ some '/')
      (hchildren : ∀ e ∈ entries, GoodNode e.2) :
      GoodNode (FSNode.dir entries)

/-- Relation between the directory paths the two `main`s hand to the same
traversal code: part_000's absolute path on the left, vomitorium.js's raw
cwd-relative path on the right. -/
def DirRel (cwd d1 d2 : String) : Prop :=
  (d1 = cwd ∧ d2 = ".") ∨
  (d1 = cwd ++ "/" ++ d2 ∧ d2 ≠ "" ∧ d2 ≠ "." ∧ d2.toList.head? ≠ some '/')

/-! Helper lemmas -/

/-- A nonempty string has positive length. -/
theorem length_pos_of_ne_empty (s : String) (h : s ≠ "") : 0 < s.length := by
  cases s with
  | mk data =>
    cases data with
    | nil => exact absurd rfl h
    | cons c cs => simp [String.length]

/-- Joining a genuine dirent name (not `""`, not `"."`) onto any directory
path never yields `""` or `"."`. -/
theorem joinPath_ne (directoryPath name : String) (h1 : name ≠ "") (h2 : name ≠ ".") :
    joinPath directoryPath name ≠ "" ∧ joinPath directoryPath name ≠ "." := by
  unfold joinPath
  split
  · exact ⟨h1, h2⟩
  · rename_i h
    have hd : directoryPath ≠ "" := fun he => h (Or.inl he)
    have hdl : 0 < directoryPath.length := length_pos_of_ne_empty _ hd
    have hnl : 0 < name.length := length_pos_of_ne_empty _ h1
    have hlen : 2 ≤ (directoryPath ++ "/" ++ name).length := by
      rw [String.length_append, String.length_append]
      have : ("/" : String).length = 1 := rfl
      omega
    constructor
    · intro he
      rw [he] at hlen
      have : ("" : String).length = 0 := rfl
      omega
    · intro he
      rw [he] at hlen
      have : ("." : String).length = 1 := rfl
      omega

/-- Two-character-long strings are neither `""` nor `"."`. -/
theorem ne_of_two_le_length (s : String) (h : 2 ≤ s.length) :
    s ≠ "" ∧ s ≠ "." := by
  constructor
  · intro he
    rw [he] at h
    have h0 : ("" : String).length = 0 := rfl
    omega
  · intro he
    rw [he] at h
    have h0 : ("." : String).length = 1 := rfl
    omega

/-- Unfolding of `joinPath` at a genuine directory part. -/
theorem joinPath_of_ne (directoryPath name : String)
    (h1 : directoryPath ≠ "") (h2 : directoryPath ≠ ".") :
    joinPath directoryPath name = directoryPath ++ "/" ++ name := by
  unfold joinPath
  rw [if_neg]
  rintro (h | h)
  · exact h1 h
  · exact h2 h

/-- Length of `joinPath` at a genuine directory part. -/
theorem joinPath_length (directoryPath name : String)
    (h1 : directoryPath ≠ "") (h2 : directoryPath ≠ ".") :
    (joinPath directoryPath name).length =
      directoryPath.length + 1 + name.length := by
  rw [joinPath_of_ne directoryPath name h1 h2, String.length_append,
    String.length_append]
  have h0 : ("/" : String).length = 1 := rfl
  omega

/-- The directory-descent condition of the source, as a proposition. -/
theorem descendCond_iff (cfg : Config) (entryPath : String) :
    (cfg.includeDirectories.isEmpty
        || cfg.includeDirectories.any
            (fun includeDirectory => containsSub entryPath includeDirectory)) = true ↔
      (cfg.includeDirectories = [] ∨
        ∃ d ∈ cfg.includeDirectories, d.toList <:+: entryPath.toList) := by
  simp [containsSub, List.any_eq_true, List.isEmpty_iff]

/-- Traversal of a readable directory is the concatenation over its
entries. -/
theorem traverse_dir (cfg : Config) (directoryPath : String)
    (entries : List (String × FSNode)) :
    traverseDirectoryRecursively cfg directoryPath (FSNode.dir entries) =
      traverseEntries cfg directoryPath entries := by
  simp [traverseDirectoryRecursively]

/-- Traversal of an unreadable directory: `fs.readdir` rejects, the catch
block only logs, and the subtree contributes nothing. -/
theorem traverse_unreadable (cfg : Config) (directoryPath : String) :
    traverseDirectoryRecursively cfg directoryPath FSNode.unreadableDir = [] := by
  simp [traverseDirectoryRecursively]

/-- Traversal applied to a file path (`fs.readdir` rejects with `ENOTDIR`,
same caught-error path). -/
theorem traverse_file (cfg : Config) (directoryPath content : String) :
    traverseDirectoryRecursively cfg directoryPath (FSNode.file content) = [] := by
  simp [traverseDirectoryRecursively]

/-- Unfolding of the entry loop on the empty list. -/
theorem traverseEntries_nil (cfg : Config) (directoryPath : String) :
    traverseEntries cfg directoryPath [] = [] := by
  simp [traverseEntries]

/-- Unfolding of the entry loop on a cons. -/
theorem traverseEntries_cons (cfg : Config) (directoryPath : String)
    (entry : String × FSNode) (rest : List (String × FSNode)) :
    traverseEntries cfg directoryPath (entry :: rest) =
      processEntry cfg directoryPath entry ++ traverseEntries cfg directoryPath rest := by
  simp [traverseEntries]

/-- Branch lemma: an excluded entry of any kind yields exactly the
"Excluded" skip block when `showExcluded` is on, nothing otherwise. -/
theorem processEntry_excluded (cfg : Config) (directoryPath name : String)
    (node : FSNode)
    (hx : isExcluded cfg.excludePatterns (joinPath directoryPath name) = true) :
    processEntry cfg directoryPath (name, node) =
      if cfg.showExcluded then
        [Block.skip (joinPath directoryPath name) "Excluded"]
      else [] := by
  cases node <;> simp [processEntry, hx]

/-- Branch lemma: a non-excluded file runs the extension filter and either
records a skip, stays silent, or appends its content. -/
theorem processEntry_file (cfg : Config) (directoryPath name content : String)
    (hx : isExcluded cfg.excludePatterns (joinPath directoryPath name) = false) :
    processEntry cfg directoryPath (name, FSNode.file content) =
      if cfg.includeExtensions.contains (extname name) then
        [Block.content (joinPath directoryPath name) content]
      else if cfg.showSkipped then
        [Block.skip (joinPath directoryPath name) "Skipped (non-matching extension)"]
      else [] := by
  simp only [processEntry, hx, Bool.false_eq_true, if_false]
  cases h : cfg.includeExtensions.contains (extname name) <;>
    simp [h]

/-- Branch lemma: a non-excluded readable directory descends iff the
include-directory condition holds. -/
theorem processEntry_dirNode (cfg : Config) (directoryPath name : String)
    (entries : List (String × FSNode))
    (hx : isExcluded cfg.excludePatterns (joinPath directoryPath name) = false) :
    processEntry cfg directoryPath (name, FSNode.dir entries) =
      if cfg.includeDirectories.isEmpty
          || cfg.includeDirectories.any
              (fun includeDirectory =>
                containsSub (joinPath directoryPath name) includeDirectory) then
        traverseEntries cfg (joinPath directoryPath name) entries
      else [] := by
  simp [processEntry, hx, traverse_dir]

/-- Branch lemma: a non-excluded unreadable directory yields nothing
whether or not it is descended into. -/
theorem processEntry_unreadable (cfg : Config) (directoryPath name : String)
    (hx : isExcluded cfg.excludePatterns (joinPath directoryPath name) = false) :
    processEntry cfg directoryPath (name, FSNode.unreadableDir) = [] := by
  simp [processEntry, hx, traverse_unreadable]

/-- Shapes a block appended anywhere during a traversal can take. -/
def ShapeOk (cfg : Config) (b : Block) : Prop :=
  (∃ q, b = Block.skip q "Excluded" ∧ cfg.showExcluded = true) ∨
  (∃ q, b = Block.skip q "Skipped (non-matching extension)" ∧ cfg.showSkipped = true) ∨
  (∃ q c, b = Block.content q c)

/-- Every block emitted by the traversal has one of the three shapes of
`ShapeOk`, established by strong induction on the tree size. -/
theorem blocks_shape_aux (cfg : Config) : ∀ n : Nat,
    (∀ entry : String × FSNode, sizeOf entry < n → ∀ directoryPath,
      ∀ b ∈ processEntry cfg directoryPath entry, ShapeOk cfg b) ∧
    (∀ entries : List (String × FSNode), sizeOf entries < n → ∀ directoryPath,
      ∀ b ∈ traverseEntries cfg directoryPath entries, ShapeOk cfg b) ∧
    (∀ node : FSNode, sizeOf node < n → ∀ directoryPath,
      ∀ b ∈ traverseDirectoryRecursively cfg directoryPath node, ShapeOk cfg b) := by
  intro n
  induction n with
  | zero =>
      exact ⟨fun e h => absurd h (Nat.not_lt_zero _),
        fun es h => absurd h (Nat.not_lt_zero _),
        fun nd h => absurd h (Nat.not_lt_zero _)⟩
  | succ n ih =>
      refine ⟨?_, ?_, ?_⟩
      · rintro ⟨name, node⟩ hsz directoryPath b hb
        have hn : sizeOf node < n := by
          simp only [Prod.mk.sizeOf_spec] at hsz
          omega
        cases hx : isExcluded cfg.excludePatterns (joinPath directoryPath name) with
        | true =>
            rw [processEntry_excluded cfg directoryPath name node hx] at hb
            split at hb
            · rename_i hshow
              simp at hb
              subst hb
              exact Or.inl ⟨_, rfl, hshow⟩
            · simp at hb
        | false =>
            cases node with
            | file content =>
                rw [processEntry_file cfg directoryPath name content hx] at hb
                split at hb
                · simp at hb
                  subst hb
                  exact Or.inr (Or.inr ⟨_, _, rfl⟩)
                · split at hb
                  · rename_i hskip
                    simp at hb
                    subst hb
                    exact Or.inr (Or.inl ⟨_, rfl, hskip⟩)
                  · simp at hb
            | dir entries =>
                rw [processEntry_dirNode cfg directoryPath name entries hx] at hb
                split at hb
                · have hes : sizeOf entries < n := by
                    simp only [FSNode.dir.sizeOf_spec] at hn
                    omega
                  exact ih.2.1 entries hes _ b hb
                · simp at hb
            | unreadableDir =>
                rw [processEntry_unreadable cfg directoryPath name hx] at hb
                simp at hb
      · intro entries hsz directoryPath b hb
        cases entries with
        | nil =>
            rw [traverseEntries_nil] at hb
            simp at hb
        | cons entry rest =>
            rw [traverseEntries_cons] at hb
            have h1 : sizeOf entry < n := by
              simp only [List.cons.sizeOf_spec] at hsz
              omega
            have h2 : sizeOf rest < n := by
              simp only [List.cons.sizeOf_spec] at hsz
              omega
            rcases List.mem_append.mp hb with h | h
            · exact ih.1 entry h1 _ b h
            · exact ih.2.1 rest h2 _ b h
      · intro node hsz directoryPath b hb
        cases node with
        | file content =>
            rw [traverse_file] at hb
            simp at hb
        | dir entries =>
            rw [traverse_dir] at hb
            have hes : sizeOf entries < n := by
              simp only [FSNode.dir.sizeOf_spec] at hsz
              omega
            exact ih.2.1 entries hes _ b hb
        | unreadableDir =>
            rw [traverse_unreadable] at hb
            simp at hb

/-- Shape soundness at the top-level traversal, with the size bookkeeping
discharged. -/
theorem blocks_shape (cfg : Config) (directoryPath : String) (node : FSNode) :
    ∀ b ∈ traverseDirectoryRecursively cfg directoryPath node, ShapeOk cfg b :=
  (blocks_shape_aux cfg (sizeOf node + 1)).2.2 node (Nat.lt_succ_self _) directoryPath

/-! Claim C1 -/

/-- C1: the exclusion classifier returns `true` iff the entry's cwd-relative
path contains some exclude pattern as a substring, or the entry's basename
exactly equals some exclude pattern; for all other entries it returns
`false`.  The classifier is a pure Lean function, so it has no side
effects by construction. -/
theorem isExcluded_iff (excludePatterns : List String) (filePath : String) :
    isExcluded excludePatterns filePath = true ↔
      ∃ pat ∈ excludePatterns,
        pat.toList <:+: filePath.toList ∨ basename filePath = pat := by
  simp [isExcluded, containsSub, List.any_eq_true]

/-- Closed instances of C1 at concrete inputs. -/
theorem isExcluded_iff_witness :
    isExcluded ["node_modules", ".git"] "proj/node_modules/a.js" = true ∧
    isExcluded ["node_modules", ".git"] "proj/src/a.js" = false := by
  exact ⟨(isExcluded_iff ["node_modules", ".git"] "proj/node_modules/a.js").mpr
      ⟨"node_modules", by decide, Or.inl (by decide)⟩,
    by decide⟩

/-! Claim C2 -/

/-- C2: a non-excluded directory entry is descended into iff the configured
include-directory list is empty or the entry's path contains one of its
elements as a substring; when the test fails the directory contributes no
output block at all, whatever `showSkipped` (and `showExcluded`) are. -/
theorem dir_descend_iff (cfg : Config) (directoryPath name : String)
    (entries : List (String × FSNode))
    (hx : isExcluded cfg.excludePatterns (joinPath directoryPath name) = false) :
    ((cfg.includeDirectories = [] ∨
        ∃ d ∈ cfg.includeDirectories,
          d.toList <:+: (joinPath directoryPath name).toList) →
      processEntry cfg directoryPath (name, FSNode.dir entries) =
        traverseDirectoryRecursively cfg (joinPath directoryPath name)
          (FSNode.dir entries)) ∧
    (¬(cfg.includeDirectories = [] ∨
        ∃ d ∈ cfg.includeDirectories,
          d.toList <:+: (joinPath directoryPath name).toList) →
      processEntry cfg directoryPath (name, FSNode.dir entries) = []) := by
  constructor
  · intro hcond
    have hb := (descendCond_iff cfg (joinPath directoryPath name)).mpr hcond
    simp [processEntry, hx, hb]
  · intro hcond
    have hb : (cfg.includeDirectories.isEmpty
        || cfg.includeDirectories.any
            (fun includeDirectory =>
              containsSub (joinPath directoryPath name) includeDirectory)) = false := by
      by_contra hb
      exact hcond ((descendCond_iff cfg (joinPath directoryPath name)).mp
        (by revert hb; cases h : (cfg.includeDirectories.isEmpty
          || cfg.includeDirectories.any
              (fun includeDirectory =>
                containsSub (joinPath directoryPath name) includeDirectory)) <;> simp))
    simp [processEntry, hx, hb]

/-- Closed instance of C2: with `includeDirs = ["src"]`, the directory
`proj/docs` is pruned and yields no block, while `proj/src` is descended. -/
theorem dir_descend_iff_witness :
    processEntry ⟨["src"], ["node_modules"], [".js"], true, true⟩ "proj"
        ("docs", FSNode.dir [("a.js", FSNode.file "x")]) = [] ∧
    processEntry ⟨["src"], ["node_modules"], [".js"], true, true⟩ "proj"
        ("src", FSNode.dir [("a.js", FSNode.file "x")]) =
      traverseDirectoryRecursively ⟨["src"], ["node_modules"], [".js"], true, true⟩
        "proj/src" (FSNode.dir [("a.js", FSNode.file "x")]) := by
  constructor
  · refine (dir_descend_iff _ "proj" "docs" _ (by decide)).2 ?_
    rintro (h | ⟨d, hd, hinf⟩)
    · simp at h
    · simp at hd
      subst hd
      revert hinf
      decide
  · exact (dir_descend_iff _ "proj" "src" _ (by decide)).1
      (Or.inr ⟨"src", by simp, by decide⟩)

/-! Claim C3 -/

/-- C3: an excluded entry is never descended into and never has content
appended, regardless of `includeDirs` — its whole contribution is the
single "Excluded" skip record when `showExcluded` is on and nothing
otherwise; and when `showExcluded` is off no "Excluded" block appears
anywhere in the traversal output. -/
theorem excluded_entry_handling (cfg : Config) :
    (∀ directoryPath name node,
        isExcluded cfg.excludePatterns (joinPath directoryPath name) = true →
        processEntry cfg directoryPath (name, node) =
          if cfg.showExcluded then
            [Block.skip (joinPath directoryPath name) "Excluded"]
          else []) ∧
    (cfg.showExcluded = false →
        ∀ directoryPath node b,
          b ∈ traverseDirectoryRecursively cfg directoryPath node →
          ∀ q, b ≠ Block.skip q "Excluded") := by
  constructor
  · intro directoryPath name node hx
    exact processEntry_excluded cfg directoryPath name node hx
  · intro hse directoryPath node b hb q he
    rcases blocks_shape cfg directoryPath node b hb with
      ⟨q2, he2, hs⟩ | ⟨q2, he2, _⟩ | ⟨q2, c, he2⟩
    · rw [hse] at hs
      exact Bool.false_ne_true hs
    · subst he
      simp at he2
    · subst he
      simp at he2

/-- Closed instance of C3: under defaults the excluded directory
`node_modules` contributes only its skip record, and its `.js` child is
never reached. -/
theorem excluded_entry_handling_witness :
    processEntry defaultConfig "proj"
        ("node_modules", FSNode.dir [("c.js", FSNode.file "z")]) =
      [Block.skip "proj/node_modules" "Excluded"] := by
  have h := (excluded_entry_handling defaultConfig).1 "proj" "node_modules"
    (FSNode.dir [("c.js", FSNode.file "z")]) (by decide)
  simpa using h

/-! Claim C4 -/

/-- C4: a non-excluded file whose extension is not in `includeExtensions`
yields exactly the "Skipped (non-matching extension)" block for its
relative path when `showSkipped` is on, and no block at all otherwise; in
neither case is a content block produced. -/
theorem file_nonmatching_extension (cfg : Config)
    (directoryPath name content : String)
    (hx : isExcluded cfg.excludePatterns (joinPath directoryPath name) = false)
    (hext : cfg.includeExtensions.contains (extname name) = false) :
    (processEntry cfg directoryPath (name, FSNode.file content) =
      if cfg.showSkipped then
        [Block.skip (joinPath directoryPath name) "Skipped (non-matching extension)"]
      else []) ∧
    ∀ q c, Block.content q c ∉ processEntry cfg directoryPath (name, FSNode.file content) := by
  have he := processEntry_file cfg directoryPath name content hx
  rw [hext] at he
  simp only [Bool.false_eq_true, if_false] at he
  refine ⟨he, ?_⟩
  intro q c hc
  rw [he] at hc
  split at hc
  · simp at hc
  · simp at hc

/-- Closed instance of C4: under defaults `proj/b.txt` is reported skipped
with the non-matching-extension reason. -/
theorem file_nonmatching_extension_witness :
    processEntry defaultConfig "proj" ("b.txt", FSNode.file "y") =
      [Block.skip "proj/b.txt" "Skipped (non-matching extension)"] := by
  have h := (file_nonmatching_extension defaultConfig "proj" "b.txt" "y"
    (by decide) (by decide)).1
  simpa using h

/-! Claim C5 -/

/-- C5: an included file contributes exactly one content block, whose
rendered text is precisely the header naming the cwd-relative path, a blank
line, the raw file content unmodified, and the trailing newline. -/
theorem included_file_block (cfg : Config) (directoryPath name content : String)
    (hx : isExcluded cfg.excludePatterns (joinPath directoryPath name) = false)
    (hext : cfg.includeExtensions.contains (extname name) = true) :
    processEntry cfg directoryPath (name, FSNode.file content) =
      [Block.content (joinPath directoryPath name) content] ∧
    renderBlock (Block.content (joinPath directoryPath name) content) =
      "\n\n--- File: " ++ joinPath directoryPath name ++ " ---\n\n" ++ content ++ "\n" := by
  constructor
  · have he := processEntry_file cfg directoryPath name content hx
    rw [hext] at he
    simpa using he
  · rfl

/-- Closed instance of C5: under defaults `proj/a.js` with content `"x"`
produces exactly its content block. -/
theorem included_file_block_witness :
    processEntry defaultConfig "proj" ("a.js", FSNode.file "x") =
      [Block.content "proj/a.js" "x"] ∧
    renderBlock (Block.content "proj/a.js" "x") =
      "\n\n--- File: proj/a.js ---\n\nx\n" := by
  have h := included_file_block defaultConfig "proj" "a.js" "x" (by decide) (by decide)
  constructor
  · have h1 := h.1
    simpa using h1
  · rfl

/-! Claim C6 -/

/-- C6: a directory whose entries cannot be read contributes nothing to the
output (the error is caught and only logged — the embedding is a total
function, so nothing propagates to the caller); the entry loop decomposes
over siblings, so every other entry's contribution is unchanged; and the
failed subtree never contributes a content block. -/
theorem directory_read_error_isolated (cfg : Config) :
    (∀ directoryPath,
        traverseDirectoryRecursively cfg directoryPath FSNode.unreadableDir = []) ∧
    (∀ directoryPath (es₁ es₂ : List (String × FSNode)) (entry : String × FSNode),
        traverseEntries cfg directoryPath (es₁ ++ entry :: es₂) =
          traverseEntries cfg directoryPath es₁
            ++ processEntry cfg directoryPath entry
            ++ traverseEntries cfg directoryPath es₂) ∧
    (∀ directoryPath name b,
        b ∈ processEntry cfg directoryPath (name, FSNode.unreadableDir) →
        ∀ q c, b ≠ Block.content q c) := by
  refine ⟨fun directoryPath => traverse_unreadable cfg directoryPath, ?_, ?_⟩
  · intro directoryPath es₁ es₂ entry
    induction es₁ with
    | nil => simp [traverseEntries_nil, traverseEntries_cons]
    | cons e rest ih =>
        rw [List.cons_append, traverseEntries_cons, ih, traverseEntries_cons]
        simp [List.append_assoc]
  · intro directoryPath name b hb q c he
    cases hx : isExcluded cfg.excludePatterns (joinPath directoryPath name) with
    | true =>
        rw [processEntry_excluded cfg directoryPath name _ hx] at hb
        split at hb
        · simp at hb
          subst hb
          exact Block.noConfusion he
        · simp at hb
    | false =>
        rw [processEntry_unreadable cfg directoryPath name hx] at hb
        simp at hb

/-- Closed instance of C6: an unreadable directory between two sibling
files leaves both siblings' contributions intact. -/
theorem directory_read_error_isolated_witness :
    traverseEntries defaultConfig "proj"
        ([("a.js", FSNode.file "x")]
          ++ ("bad", FSNode.unreadableDir) :: [("b.js", FSNode.file "y")]) =
      traverseEntries defaultConfig "proj" [("a.js", FSNode.file "x")]
        ++ processEntry defaultConfig "proj" ("bad", FSNode.unreadableDir)
        ++ traverseEntries defaultConfig "proj" [("b.js", FSNode.file "y")] :=
  (directory_read_error_isolated defaultConfig).2.1 "proj" _ _ _

/-! Claim C7 -/

/-- C7: with a missing/inaccessible scan root, `main` exits with code 1,
prints exactly one error message and that message contains the path, and
the output file is never created or written; a run with an accessible root
completes with exit code 0, no error message, and the traversal's output. -/
theorem main_exit_behavior (cfg : Config) (inputDirectory : String)
    (root : Option FSNode) :
    (root = none →
        main cfg inputDirectory root =
          ⟨1, ["Error: Directory \"" ++ inputDirectory
                ++ "\" does not exist or is inaccessible."], none⟩) ∧
    (root = none →
        ∃ msg ∈ (main cfg inputDirectory root).errorMessages,
          inputDirectory.toList <:+: msg.toList) ∧
    (∀ node, root = some node →
        (main cfg inputDirectory root).exitCode = 0 ∧
        (main cfg inputDirectory root).errorMessages = [] ∧
        (main cfg inputDirectory root).output =
          some (renderBlocks
            (traverseDirectoryRecursively cfg inputDirectory node))) := by
  refine ⟨?_, ?_, ?_⟩
  · intro h
    subst h
    rfl
  · intro h
    subst h
    refine ⟨"Error: Directory \"" ++ inputDirectory
        ++ "\" does not exist or is inaccessible.", by simp [main], ?_⟩
    refine ⟨("Error: Directory \"").toList,
      ("\" does not exist or is inaccessible.").toList, ?_⟩
    show ("Error: Directory \"").data ++ inputDirectory.data
        ++ ("\" does not exist or is in" ++ "accessible.").data = _
    simp [String.data_append]
  · intro node h
    subst h
    exact ⟨rfl, rfl, rfl⟩

/-- Closed instance of C7 at a concrete missing root. -/
theorem main_exit_behavior_witness :
    main defaultConfig "missing" none =
      ⟨1, ["Error: Directory \"" ++ "missing"
            ++ "\" does not exist or is inaccessible."], none⟩ :=
  (main_exit_behavior defaultConfig "missing" none).1 rfl

/-! Claim C8 -/

/-- The output history starts with the empty file content. -/
theorem outputHistory_head (blocks : List Block) :
    (outputHistory blocks).head? = some "" := by
  cases blocks <;> simp [outputHistory, List.scanl_nil, List.scanl_cons]

/-- Each successive state of a scan by `appendBlock` extends the previous
state on the right (stated on `getElem?` to avoid dependent indices). -/
theorem scanl_append_step (blocks : List Block) : ∀ (init : String) (k : Nat),
    k + 1 < (List.scanl appendBlock init blocks).length →
    ∃ s, (List.scanl appendBlock init blocks)[k + 1]? =
      some ((List.scanl appendBlock init blocks)[k]?.getD "" ++ s) := by
  induction blocks with
  | nil =>
      intro init k hk
      simp [List.scanl_nil] at hk
  | cons b rest ih =>
      intro init k hk
      rw [List.scanl_cons] at hk ⊢
      cases k with
      | zero =>
          refine ⟨renderBlock b, ?_⟩
          simp [List.singleton_append, List.getElem?_scanl_zero, appendBlock]
      | succ k =>
          have hk2 : k + 1 < (List.scanl appendBlock (appendBlock init b) rest).length := by
            simp only [List.singleton_append, List.length_cons] at hk
            omega
          obtain ⟨s, hs⟩ := ih (appendBlock init b) k hk2
          exact ⟨s, by simpa [List.singleton_append] using hs⟩

/-- C8: in a run that begins traversal the output file is created empty,
and every subsequent state of the file extends the previous one as a
prefix (each operation is an append of one rendered block). -/
theorem output_monotone (cfg : Config) (directoryPath : String) (node : FSNode)
    (k : Nat)
    (hk : k + 1 <
      (outputHistory (traverseDirectoryRecursively cfg directoryPath node)).length) :
    (outputHistory (traverseDirectoryRecursively cfg directoryPath node)).head? =
        some "" ∧
    ∃ s,
      (outputHistory (traverseDirectoryRecursively cfg directoryPath node)).get
          ⟨k + 1, hk⟩ =
        (outputHistory (traverseDirectoryRecursively cfg directoryPath node)).get
          ⟨k, by omega⟩ ++ s := by
  refine ⟨outputHistory_head _, ?_⟩
  obtain ⟨s, hs⟩ := scanl_append_step
    (traverseDirectoryRecursively cfg directoryPath node) "" k hk
  refine ⟨s, ?_⟩
  have hk2 : k <
      (outputHistory (traverseDirectoryRecursively cfg directoryPath node)).length := by
    omega
  rw [List.get_eq_getElem, List.get_eq_getElem]
  have e1 := List.getElem?_eq_getElem hk
  have e2 := List.getElem?_eq_getElem hk2
  simp only [outputHistory] at e1 e2 ⊢
  rw [e1, e2] at hs
  simpa using hs

/-- Traversal value used by the C8 witness: one included file. -/
theorem output_monotone_witness_value :
    traverseDirectoryRecursively defaultConfig "proj"
        (FSNode.dir [("a.js", FSNode.file "x")]) =
      [Block.content "proj/a.js" "x"] := by
  rw [traverse_dir, traverseEntries_cons, traverseEntries_nil]
  have h := processEntry_file defaultConfig "proj" "a.js" "x" (by decide)
  have hj : joinPath "proj" "a.js" = "proj/a.js" := by decide
  rw [hj] at h
  rw [h]
  have hc : defaultConfig.includeExtensions.contains (extname "a.js") = true := by
    decide
  rw [hc]
  simp

/-- Length bound used by the C8 witness. -/
theorem output_monotone_witness_len :
    0 + 1 < (outputHistory (traverseDirectoryRecursively defaultConfig "proj"
      (FSNode.dir [("a.js", FSNode.file "x")]))).length := by
  rw [output_monotone_witness_value]
  simp [outputHistory]

/-- Closed instance of C8 on a one-file tree. -/
theorem output_monotone_witness :
    (outputHistory (traverseDirectoryRecursively defaultConfig "proj"
        (FSNode.dir [("a.js", FSNode.file "x")]))).head? = some "" ∧
    ∃ s,
      (outputHistory (traverseDirectoryRecursively defaultConfig "proj"
          (FSNode.dir [("a.js", FSNode.file "x")]))).get
          ⟨0 + 1, output_monotone_witness_len⟩ =
        (outputHistory (traverseDirectoryRecursively defaultConfig "proj"
            (FSNode.dir [("a.js", FSNode.file "x")]))).get
          ⟨0, by have := output_monotone_witness_len; omega⟩ ++ s :=
  output_monotone defaultConfig "proj" (FSNode.dir [("a.js", FSNode.file "x")]) 0
    output_monotone_witness_len

/-! Claim C9 -/

/-- Stripping the working-directory whose path was just prepended. -/
theorem relativeTo_strip (cwd r : String) :
    relativeTo cwd (cwd ++ "/" ++ r) = r := by
  unfold relativeTo
  rw [if_pos]
  · have hdata : (cwd ++ "/" ++ r).toList = (cwd ++ "/").toList ++ r.toList :=
      String.data_append (cwd ++ "/") r
    rw [hdata, List.drop_left]
    rfl
  · exact ⟨r.toList, (String.data_append (cwd ++ "/") r).symm⟩

/-- The head character of an append with a nonempty left part. -/
theorem head_of_append (r s : String) (h : r ≠ "") :
    (r ++ s).toList.head? = r.toList.head? := by
  cases r with
  | mk data =>
    cases data with
    | nil => exact absurd rfl h
    | cons c cs =>
        show ((String.mk (c :: cs)) ++ s).data.head? = _
        rw [String.data_append]
        rfl

/-- A cwd-relative path (not starting with the separator) is unchanged by
`path.relative` against an absolute working directory. -/
theorem relativeTo_keep (cwd r : String) (hcwd : cwd.toList.head? = some '/')
    (hr : r.toList.head? ≠ some '/') :
    relativeTo cwd r = r := by
  unfold relativeTo
  rw [if_neg]
  rintro ⟨t, ht⟩
  apply hr
  have hcw : cwd ≠ "" := by
    intro he
    rw [he] at hcwd
    exact absurd hcwd (by decide)
  have h1 : (cwd ++ "/").toList.head? = some '/' := by
    rw [head_of_append cwd "/" hcw]
    exact hcwd
  rw [← ht]
  cases hcs : (cwd ++ "/").toList with
  | nil => rw [hcs] at h1; exact absurd h1 (by decide)
  | cons c cs =>
      rw [hcs] at h1
      simpa using h1

/-- The basename scan restarts at every separator, so a prepended directory
part is irrelevant. -/
theorem basenameAux_append (ys : List Char) : ∀ (xs acc : List Char),
    basenameAux acc (xs ++ '/' :: ys) = basenameAux [] ys := by
  intro xs
  induction xs with
  | nil =>
      intro acc
      simp [basenameAux]
  | cons c cs ih =>
      intro acc
      rw [List.cons_append]
      by_cases hc : c = '/'
      · subst hc
        have hstep : basenameAux acc ('/' :: (cs ++ '/' :: ys)) =
            basenameAux [] (cs ++ '/' :: ys) := by
          simp [basenameAux]
        rw [hstep]
        exact ih []
      · have hstep : basenameAux acc (c :: (cs ++ '/' :: ys)) =
            basenameAux (acc ++ [c]) (cs ++ '/' :: ys) := by
          simp [basenameAux, hc]
        rw [hstep]
        exact ih _

/-- `path.basename` ignores a prepended directory part. -/
theorem basename_append_slash (a r : String) :
    basename (a ++ "/" ++ r) = basename r := by
  unfold basename
  congr 1
  have hdata : (a ++ "/" ++ r).toList = a.toList ++ '/' :: r.toList := by
    show ((a ++ "/") ++ r).data = a.data ++ '/' :: r.data
    rw [String.data_append, String.data_append]
    simp
  rw [hdata, basenameAux_append]

/-- The classifier is invariant under resolving an entry path against the
working directory: both sources relativise the path for the substring test
and take the basename of the full path. -/
theorem isExcludedAt_resolve (cwd : String) (excludePatterns : List String)
    (r : String) (hcwd : cwd.toList.head? = some '/')
    (hr : r.toList.head? ≠ some '/') :
    isExcludedAt cwd excludePatterns (cwd ++ "/" ++ r) =
      isExcludedAt cwd excludePatterns r := by
  unfold isExcludedAt
  simp only [relativeTo_strip cwd r, relativeTo_keep cwd r hcwd hr,
    basename_append_slash cwd r]

/-- Explicit-cwd traversal of a readable directory. -/
theorem traverseAt_dir (cwd : String) (cfg : Config) (directoryPath : String)
    (entries : List (String × FSNode)) :
    traverseDirectoryRecursivelyAt cwd cfg directoryPath (FSNode.dir entries) =
      traverseEntriesAt cwd cfg directoryPath entries := by
  simp [traverseDirectoryRecursivelyAt]

/-- Explicit-cwd traversal of an unreadable directory. -/
theorem traverseAt_unreadable (cwd : String) (cfg : Config)
    (directoryPath : String) :
    traverseDirectoryRecursivelyAt cwd cfg directoryPath FSNode.unreadableDir = [] := by
  simp [traverseDirectoryRecursivelyAt]

/-- Explicit-cwd traversal applied to a file path. -/
theorem traverseAt_file (cwd : String) (cfg : Config)
    (directoryPath content : String) :
    traverseDirectoryRecursivelyAt cwd cfg directoryPath (FSNode.file content) = [] := by
  simp [traverseDirectoryRecursivelyAt]

/-- Explicit-cwd entry loop on the empty list. -/
theorem traverseEntriesAt_nil (cwd : String) (cfg : Config)
    (directoryPath : String) :
    traverseEntriesAt cwd cfg directoryPath [] = [] := by
  simp [traverseEntriesAt]

/-- Explicit-cwd entry loop on a cons. -/
theorem traverseEntriesAt_cons (cwd : String) (cfg : Config)
    (directoryPath : String) (entry : String × FSNode)
    (rest : List (String × FSNode)) :
    traverseEntriesAt cwd cfg directoryPath (entry :: rest) =
      processEntryAt cwd cfg directoryPath entry
        ++ traverseEntriesAt cwd cfg directoryPath rest := by
  simp [traverseEntriesAt]

/-- Explicit-cwd branch lemma for excluded entries. -/
theorem processEntryAt_excluded (cwd : String) (cfg : Config)
    (directoryPath name : String) (node : FSNode)
    (hx : isExcludedAt cwd cfg.excludePatterns (joinPath directoryPath name) = true) :
    processEntryAt cwd cfg directoryPath (name, node) =
      if cfg.showExcluded then
        [Block.skip (relativeTo cwd (joinPath directoryPath name)) "Excluded"]
      else [] := by
  cases node <;> simp [processEntryAt, hx]

/-- Explicit-cwd branch lemma for non-excluded files. -/
theorem processEntryAt_file (cwd : String) (cfg : Config)
    (directoryPath name content : String)
    (hx : isExcludedAt cwd cfg.excludePatterns (joinPath directoryPath name) = false) :
    processEntryAt cwd cfg directoryPath (name, FSNode.file content) =
      if cfg.includeExtensions.contains (extname name) then
        [Block.content (relativeTo cwd (joinPath directoryPath name)) content]
      else if cfg.showSkipped then
        [Block.skip (relativeTo cwd (joinPath directoryPath name))
          "Skipped (non-matching extension)"]
      else [] := by
  simp only [processEntryAt, hx, Bool.false_eq_true, if_false]
  cases h : cfg.includeExtensions.contains (extname name) <;> simp [h]

/-- Explicit-cwd branch lemma for non-excluded readable directories. -/
theorem processEntryAt_dirNode (cwd : String) (cfg : Config)
    (directoryPath name : String) (entries : List (String × FSNode))
    (hx : isExcludedAt cwd cfg.excludePatterns (joinPath directoryPath name) = false) :
    processEntryAt cwd cfg directoryPath (name, FSNode.dir entries) =
      if cfg.includeDirectories.isEmpty
          || cfg.includeDirectories.any
              (fun includeDirectory =>
                containsSub (joinPath directoryPath name) includeDirectory) then
        traverseEntriesAt cwd cfg (joinPath directoryPath name) entries
      else [] := by
  simp [processEntryAt, hx, traverseAt_dir]

/-- Explicit-cwd branch lemma for non-excluded unreadable directories. -/
theorem processEntryAt_unreadable (cwd : String) (cfg : Config)
    (directoryPath name : String)
    (hx : isExcludedAt cwd cfg.excludePatterns (joinPath directoryPath name) = false) :
    processEntryAt cwd cfg directoryPath (name, FSNode.unreadableDir) = [] := by
  simp [processEntryAt, hx, traverseAt_unreadable]

/-- Transport of `DirRel` across one `path.join` with a well-formed dirent
name: the two joined paths stay in resolution correspondence. -/
theorem DirRel_join (cwd d1 d2 name : String) (h : DirRel cwd d1 d2)
    (hcwd1 : cwd ≠ "") (hcwd2 : cwd ≠ ".")
    (hn1 : name ≠ "") (hn2 : name ≠ ".") (hn3 : name.toList.head? ≠ some '/') :
    joinPath d1 name = cwd ++ "/" ++ joinPath d2 name ∧
    joinPath d2 name ≠ "" ∧ joinPath d2 name ≠ "." ∧
    (joinPath d2 name).toList.head? ≠ some '/' := by
  rcases h with ⟨h1, h2⟩ | ⟨h1, h2, h3, h4⟩
  · rw [h1, h2]
    have hdot : joinPath "." name = name := by simp [joinPath]
    have hcwdj : joinPath cwd name = cwd ++ "/" ++ name :=
      joinPath_of_ne cwd name hcwd1 hcwd2
    rw [hdot, hcwdj]
    exact ⟨rfl, hn1, hn2, hn3⟩
  · rw [h1]
    have hd2j : joinPath d2 name = d2 ++ "/" ++ name :=
      joinPath_of_ne d2 name h2 h3
    have hsl : ("/" : String).length = 1 := rfl
    have hlen : 2 ≤ (cwd ++ "/" ++ d2).length := by
      rw [String.length_append, String.length_append]
      have hc : 0 < cwd.length := length_pos_of_ne_empty _ hcwd1
      omega
    obtain ⟨hne, hnd⟩ := ne_of_two_le_length _ hlen
    have hd1j : joinPath (cwd ++ "/" ++ d2) name = cwd ++ "/" ++ d2 ++ "/" ++ name :=
      joinPath_of_ne _ name hne hnd
    have hassoc : cwd ++ "/" ++ d2 ++ "/" ++ name = cwd ++ "/" ++ (d2 ++ "/" ++ name) := by
      apply String.ext
      simp [String.data_append]
    have hlen2 : 2 ≤ (d2 ++ "/" ++ name).length := by
      rw [String.length_append, String.length_append]
      have h2l : 0 < d2.length := length_pos_of_ne_empty _ h2
      omega
    obtain ⟨hq1, hq2⟩ := ne_of_two_le_length _ hlen2
    have hslash : d2 ++ "/" ≠ "" := by
      intro he
      have h0 : (d2 ++ "/").length = 0 := by rw [he]; rfl
      rw [String.length_append] at h0
      omega
    have hqh : (d2 ++ "/" ++ name).toList.head? ≠ some '/' := by
      rw [head_of_append (d2 ++ "/") name hslash, head_of_append d2 "/" h2]
      exact h4
    rw [hd1j, hd2j]
    exact ⟨hassoc, hq1, hq2, hqh⟩

/-- The explicit-cwd traversal does not depend on whether `main` resolved
the scan root, provided `includeDirs` is empty: strong induction on the
tree size along `DirRel`. -/
theorem traversalAt_resolve_aux (cwd : String) (cfg : Config)
    (hinc : cfg.includeDirectories = [])
    (hcwd : cwd.toList.head? = some '/') : ∀ n : Nat,
    (∀ entry : String × FSNode, sizeOf entry < n →
      entry.1 ≠ "" → entry.1 ≠ "." → entry.1.toList.head? ≠ some '/' →
      GoodNode entry.2 →
      ∀ d1 d2, DirRel cwd d1 d2 →
        processEntryAt cwd cfg d1 entry = processEntryAt cwd cfg d2 entry) ∧
    (∀ entries : List (String × FSNode), sizeOf entries < n →
      (∀ e ∈ entries, e.1 ≠ "" ∧ e.1 ≠ "." ∧ e.1.toList.head? ≠ some '/') →
      (∀ e ∈ entries, GoodNode e.2) →
      ∀ d1 d2, DirRel cwd d1 d2 →
        traverseEntriesAt cwd cfg d1 entries =
          traverseEntriesAt cwd cfg d2 entries) ∧
    (∀ node : FSNode, sizeOf node < n → GoodNode node →
      ∀ d1 d2, DirRel cwd d1 d2 →
        traverseDirectoryRecursivelyAt cwd cfg d1 node =
          traverseDirectoryRecursivelyAt cwd cfg d2 node) := by
  have hcwd1 : cwd ≠ "" := by
    intro he
    rw [he] at hcwd
    exact absurd hcwd (by decide)
  have hcwd2 : cwd ≠ "." := by
    intro he
    rw [he] at hcwd
    exact absurd hcwd (by decide)
  intro n
  induction n with
  | zero =>
      exact ⟨fun e h => absurd h (Nat.not_lt_zero _),
        fun es h => absurd h (Nat.not_lt_zero _),
        fun nd h => absurd h (Nat.not_lt_zero _)⟩
  | succ n ih =>
      refine ⟨?_, ?_, ?_⟩
      · rintro ⟨name, node⟩ hsz hn1 hn2 hn3 hgood d1 d2 hrel
        have hn : sizeOf node < n := by
          simp only [Prod.mk.sizeOf_spec] at hsz
          omega
        obtain ⟨hj, hq1, hq2, hq3⟩ :=
          DirRel_join cwd d1 d2 name hrel hcwd1 hcwd2 hn1 hn2 hn3
        have hxeq : isExcludedAt cwd cfg.excludePatterns (joinPath d1 name) =
            isExcludedAt cwd cfg.excludePatterns (joinPath d2 name) := by
          rw [hj]
          exact isExcludedAt_resolve cwd cfg.excludePatterns
            (joinPath d2 name) hcwd hq3
        have hreleq : relativeTo cwd (joinPath d1 name) =
            relativeTo cwd (joinPath d2 name) := by
          rw [hj, relativeTo_strip,
            relativeTo_keep cwd (joinPath d2 name) hcwd hq3]
        cases hx : isExcludedAt cwd cfg.excludePatterns (joinPath d2 name) with
        | true =>
            rw [processEntryAt_excluded cwd cfg d1 name node (by rw [hxeq]; exact hx),
              processEntryAt_excluded cwd cfg d2 name node hx, hreleq]
        | false =>
            cases node with
            | file content =>
                rw [processEntryAt_file cwd cfg d1 name content (by rw [hxeq]; exact hx),
                  processEntryAt_file cwd cfg d2 name content hx, hreleq]
            | dir entries =>
                rw [processEntryAt_dirNode cwd cfg d1 name entries (by rw [hxeq]; exact hx),
                  processEntryAt_dirNode cwd cfg d2 name entries hx, hinc]
                simp only [List.isEmpty_nil, Bool.true_or, if_true]
                have hes : sizeOf entries < n := by
                  simp only [FSNode.dir.sizeOf_spec] at hn
                  omega
                cases hgood with
                | dir _ hnames hchildren =>
                    exact ih.2.1 entries hes hnames hchildren _ _
                      (Or.inr ⟨hj, hq1, hq2, hq3⟩)
            | unreadableDir =>
                rw [processEntryAt_unreadable cwd cfg d1 name (by rw [hxeq]; exact hx),
                  processEntryAt_unreadable cwd cfg d2 name hx]
      · intro entries hsz hnames hchildren d1 d2 hrel
        cases entries with
        | nil =>
            rw [traverseEntriesAt_nil, traverseEntriesAt_nil]
        | cons e rest =>
            rw [traverseEntriesAt_cons, traverseEntriesAt_cons]
            have h1 : sizeOf e < n := by
              simp only [List.cons.sizeOf_spec] at hsz
              omega
            have h2 : sizeOf rest < n := by
              simp only [List.cons.sizeOf_spec] at hsz
              omega
            obtain ⟨he1, he2, he3⟩ := hnames e (List.mem_cons_self e rest)
            have hge := hchildren e (List.mem_cons_self e rest)
            have hrest1 : ∀ x ∈ rest, x.1 ≠ "" ∧ x.1 ≠ "." ∧
                x.1.toList.head? ≠ some '/' :=
              fun x hx => hnames x (List.mem_cons_of_mem e hx)
            have hrest2 : ∀ x ∈ rest, GoodNode x.2 :=
              fun x hx => hchildren x (List.mem_cons_of_mem e hx)
            rw [ih.1 e h1 he1 he2 he3 hge d1 d2 hrel,
              ih.2.1 rest h2 hrest1 hrest2 d1 d2 hrel]
      · intro node hsz hgood d1 d2 hrel
        cases node with
        | file content =>
            rw [traverseAt_file, traverseAt_file]
        | dir entries =>
            rw [traverseAt_dir, traverseAt_dir]
            have hes : sizeOf entries < n := by
              simp only [FSNode.dir.sizeOf_spec] at hsz
              omega
            cases hgood with
            | dir _ hnames hchildren =>
                exact ih.2.1 entries hes hnames hchildren d1 d2 hrel
        | unreadableDir =>
            rw [traverseAt_unreadable, traverseAt_unreadable]

/-- Resolving the scan root is unobservable when `includeDirs` is empty. -/
theorem traversalAt_resolve (cwd : String) (cfg : Config)
    (scanDirectory : String) (root : FSNode)
    (hinc : cfg.includeDirectories = [])
    (hcwd : cwd.toList.head? = some '/')
    (hscan : scanDirectory = "." ∨
      (scanDirectory ≠ "" ∧ scanDirectory ≠ "." ∧
        scanDirectory.toList.head? ≠ some '/'))
    (hgood : GoodNode root) :
    part000Traversal cwd cfg scanDirectory root =
      vomitoriumTraversal cwd cfg scanDirectory root := by
  unfold part000Traversal vomitoriumTraversal resolvePath
  rcases hscan with h | ⟨h1, h2, h3⟩
  · subst h
    rw [if_pos rfl]
    exact (traversalAt_resolve_aux cwd cfg hinc hcwd (sizeOf root + 1)).2.2 root
      (Nat.lt_succ_self _) hgood cwd "." (Or.inl ⟨rfl, rfl⟩)
  · rw [if_neg h2]
    exact (traversalAt_resolve_aux cwd cfg hinc hcwd (sizeOf root + 1)).2.2 root
      (Nat.lt_succ_self _) hgood _ _ (Or.inr ⟨rfl, h1, h2, h3⟩)

/-- Output of `src/vomitorium.js` in the counterexample scenario: the raw
scan root `.` gives the relative entry path `"docs"`, which does not
contain the include directory `"src"`, so the directory is pruned. -/
theorem versions_counterexample_vomitorium :
    vomitoriumTraversal "/home/src"
        ⟨["src"], vomitoriumExcludePatterns (some ["node_modules"]),
          [".js"], true, true⟩
        "." (FSNode.dir [("docs", FSNode.dir [("a.js", FSNode.file "x")])]) = [] := by
  unfold vomitoriumTraversal
  rw [traverseAt_dir, traverseEntriesAt_cons, traverseEntriesAt_nil]
  have hx : isExcludedAt "/home/src"
      (⟨["src"], vomitoriumExcludePatterns (some ["node_modules"]),
        [".js"], true, true⟩ : Config).excludePatterns
      (joinPath "." "docs") = false := by decide
  rw [processEntryAt_dirNode _ _ _ _ _ hx]
  have hc : ((⟨["src"], vomitoriumExcludePatterns (some ["node_modules"]),
        [".js"], true, true⟩ : Config).includeDirectories.isEmpty
      || (⟨["src"], vomitoriumExcludePatterns (some ["node_modules"]),
          [".js"], true, true⟩ : Config).includeDirectories.any
          (fun includeDirectory =>
            containsSub (joinPath "." "docs") includeDirectory)) = false := by
    decide
  rw [hc]
  simp

/-- Output of `src/unnamed/part_000` in the same scenario: its `main`
resolved the scan root to `/home/src`, the absolute entry path
`"/home/src/docs"` contains `"src"`, so it descends and emits the content
block for `docs/a.js`. -/
theorem versions_counterexample_part000 :
    part000Traversal "/home/src"
        ⟨["src"], part000ExcludePatterns (some ["node_modules"]),
          [".js"], true, true⟩
        "." (FSNode.dir [("docs", FSNode.dir [("a.js", FSNode.file "x")])]) =
      [Block.content "docs/a.js" "x"] := by
  unfold part000Traversal resolvePath
  rw [if_pos rfl]
  rw [traverseAt_dir, traverseEntriesAt_cons, traverseEntriesAt_nil]
  have hx : isExcludedAt "/home/src"
      (⟨["src"], part000ExcludePatterns (some ["node_modules"]),
        [".js"], true, true⟩ : Config).excludePatterns
      (joinPath "/home/src" "docs") = false := by decide
  rw [processEntryAt_dirNode _ _ _ _ _ hx]
  have hc : ((⟨["src"], part000ExcludePatterns (some ["node_modules"]),
        [".js"], true, true⟩ : Config).includeDirectories.isEmpty
      || (⟨["src"], part000ExcludePatterns (some ["node_modules"]),
          [".js"], true, true⟩ : Config).includeDirectories.any
          (fun includeDirectory =>
            containsSub (joinPath "/home/src" "docs") includeDirectory)) = true := by
    decide
  rw [hc, if_pos rfl]
  rw [traverseEntriesAt_cons, traverseEntriesAt_nil]
  have hx2 : isExcludedAt "/home/src"
      (⟨["src"], part000ExcludePatterns (some ["node_modules"]),
        [".js"], true, true⟩ : Config).excludePatterns
      (joinPath (joinPath "/home/src" "docs") "a.js") = false := by decide
  rw [processEntryAt_file _ _ _ _ _ hx2]
  have hext : (⟨["src"], part000ExcludePatterns (some ["node_modules"]),
      [".js"], true, true⟩ : Config).includeExtensions.contains
        (extname "a.js") = true := by decide
  rw [hext, if_pos rfl]
  have hrel : relativeTo "/home/src"
      (joinPath (joinPath "/home/src" "docs") "a.js") = "docs/a.js" := by decide
  rw [hrel]
  simp

/-- C9 counterexample: working directory `/home/src`, scan root `.`,
explicitly equal resolved exclude lists (`--exclude node_modules`), and
`include = ["src"]`.  `src/vomitorium.js` prunes `docs` (its relative
entry path `"docs"` does not contain `"src"`) and emits nothing, while
`src/unnamed/part_000` — whose `main` resolved the root to the absolute
`/home/src` — descends (`"/home/src/docs"` contains `"src"`) and emits the
content block for `docs/a.js`: the versions are not traversal-equivalent
as claimed. -/
theorem versions_equivalence_counterexample :
    part000ExcludePatterns (some ["node_modules"]) =
      vomitoriumExcludePatterns (some ["node_modules"]) ∧
    vomitoriumTraversal "/home/src"
        ⟨["src"], vomitoriumExcludePatterns (some ["node_modules"]),
          [".js"], true, true⟩
        "." (FSNode.dir [("docs", FSNode.dir [("a.js", FSNode.file "x")])]) ≠
      part000Traversal "/home/src"
        ⟨["src"], part000ExcludePatterns (some ["node_modules"]),
          [".js"], true, true⟩
        "." (FSNode.dir [("docs", FSNode.dir [("a.js", FSNode.file "x")])]) := by
  refine ⟨rfl, ?_⟩
  rw [versions_counterexample_vomitorium, versions_counterexample_part000]
  simp

/-- C9 (amended): the sources share their classifier and traversal code
verbatim and differ in `excludePatterns` resolution and in part_000's
`path.resolve` of the scan root.  With `--exclude` passed the resolved
exclude lists coincide; the classifier is invariant under the root
resolution (it relativises the path and takes the basename), so the
versions classify every entry identically; and when `includeDirs` is empty
(the default) they produce identical output blocks.  Under defaults
part_000's exclude list is exactly vomitorium.js's extended by
`"package.json"` and `"package-lock.json"`, and its classifier accepts
exactly the union of the two classifiers. -/
theorem versions_equivalence_amended :
    (∀ patterns : List String,
        part000ExcludePatterns (some patterns) =
          vomitoriumExcludePatterns (some patterns)) ∧
    (∀ (cwd : String) (patterns : List String) (r : String),
        cwd.toList.head? = some '/' → r.toList.head? ≠ some '/' →
        isExcludedAt cwd patterns (cwd ++ "/" ++ r) =
          isExcludedAt cwd patterns r) ∧
    (∀ (cwd : String) (cfg : Config) (scanDirectory : String) (root : FSNode),
        cfg.includeDirectories = [] →
        cwd.toList.head? = some '/' →
        (scanDirectory = "." ∨
          (scanDirectory ≠ "" ∧ scanDirectory ≠ "." ∧
            scanDirectory.toList.head? ≠ some '/')) →
        GoodNode root →
        part000Traversal cwd cfg scanDirectory root =
          vomitoriumTraversal cwd cfg scanDirectory root) ∧
    (part000ExcludePatterns none =
        vomitoriumExcludePatterns none ++ ["package.json", "package-lock.json"]) ∧
    (∀ filePath,
        isExcluded (part000ExcludePatterns none) filePath =
          (isExcluded (vomitoriumExcludePatterns none) filePath
            || isExcluded ["package.json", "package-lock.json"] filePath)) := by
  refine ⟨fun patterns => rfl, ?_, ?_, rfl, ?_⟩
  · intro cwd patterns r hcwd hr
    exact isExcludedAt_resolve cwd patterns r hcwd hr
  · intro cwd cfg scanDirectory root hinc hcwd hscan hgood
    exact traversalAt_resolve cwd cfg scanDirectory root hinc hcwd hscan hgood
  · intro filePath
    simp [part000ExcludePatterns, vomitoriumExcludePatterns, isExcluded,
      List.any_append, part000DefaultExcludeFiles, List.any_cons, List.any_nil,
      Bool.or_assoc]

/-- Closed instance of the amended C9: with empty `includeDirs` the two
versions produce identical output on a concrete well-formed tree. -/
theorem versions_equivalence_amended_witness :
    part000Traversal "/home/src" ⟨[], ["node_modules"], [".js"], true, true⟩ "."
        (FSNode.dir [("docs", FSNode.dir [("a.js", FSNode.file "x")])]) =
      vomitoriumTraversal "/home/src" ⟨[], ["node_modules"], [".js"], true, true⟩ "."
        (FSNode.dir [("docs", FSNode.dir [("a.js", FSNode.file "x")])]) := by
  refine versions_equivalence_amended.2.2.1 "/home/src"
    ⟨[], ["node_modules"], [".js"], true, true⟩ "."
    (FSNode.dir [("docs", FSNode.dir [("a.js", FSNode.file "x")])])
    rfl (by decide) (Or.inl rfl) ?_
  refine GoodNode.dir _ ?_ ?_
  · intro e he
    simp at he
    subst he
    exact ⟨by decide, by decide, by decide⟩
  · intro e he
    simp at he
    subst he
    refine GoodNode.dir _ ?_ ?_
    · intro e2 he2
      simp at he2
      subst he2
      exact ⟨by decide, by decide, by decide⟩
    · intro e2 he2
      simp at he2
      subst he2
      exact GoodNode.file "x"

/-! Claim C10 -/

/-- Every block emitted while traversing below a genuine directory path has
a strictly longer relative path than that directory, established by strong
induction on the tree size. -/
theorem blocks_deeper_aux (cfg : Config) : ∀ n : Nat,
    (∀ entry : String × FSNode, sizeOf entry < n → ∀ directoryPath,
        directoryPath ≠ "" → directoryPath ≠ "." →
        ∀ b ∈ processEntry cfg directoryPath entry,
          directoryPath.length < (Block.relPath b).length) ∧
    (∀ entries : List (String × FSNode), sizeOf entries < n → ∀ directoryPath,
        directoryPath ≠ "" → directoryPath ≠ "." →
        ∀ b ∈ traverseEntries cfg directoryPath entries,
          directoryPath.length < (Block.relPath b).length) ∧
    (∀ node : FSNode, sizeOf node < n → ∀ directoryPath,
        directoryPath ≠ "" → directoryPath ≠ "." →
        ∀ b ∈ traverseDirectoryRecursively cfg directoryPath node,
          directoryPath.length < (Block.relPath b).length) := by
  intro n
  induction n with
  | zero =>
      exact ⟨fun e h => absurd h (Nat.not_lt_zero _),
        fun es h => absurd h (Nat.not_lt_zero _),
        fun nd h => absurd h (Nat.not_lt_zero _)⟩
  | succ n ih =>
      refine ⟨?_, ?_, ?_⟩
      · rintro ⟨name, node⟩ hsz directoryPath hd1 hd2 b hb
        have hn : sizeOf node < n := by
          simp only [Prod.mk.sizeOf_spec] at hsz
          omega
        have hjl := joinPath_length directoryPath name hd1 hd2
        have hdl : 0 < directoryPath.length := length_pos_of_ne_empty _ hd1
        have hq2 : 2 ≤ (joinPath directoryPath name).length := by omega
        have hqown : directoryPath.length < (joinPath directoryPath name).length := by
          omega
        obtain ⟨hq1, hqd⟩ := ne_of_two_le_length _ hq2
        cases hx : isExcluded cfg.excludePatterns (joinPath directoryPath name) with
        | true =>
            rw [processEntry_excluded cfg directoryPath name node hx] at hb
            split at hb
            · simp at hb
              subst hb
              exact hqown
            · simp at hb
        | false =>
            cases node with
            | file content =>
                rw [processEntry_file cfg directoryPath name content hx] at hb
                split at hb
                · simp at hb
                  subst hb
                  exact hqown
                · split at hb
                  · simp at hb
                    subst hb
                    exact hqown
                  · simp at hb
            | dir entries =>
                rw [processEntry_dirNode cfg directoryPath name entries hx] at hb
                split at hb
                · have hes : sizeOf entries < n := by
                    simp only [FSNode.dir.sizeOf_spec] at hn
                    omega
                  have := ih.2.1 entries hes _ hq1 hqd b hb
                  omega
                · simp at hb
            | unreadableDir =>
                rw [processEntry_unreadable cfg directoryPath name hx] at hb
                simp at hb
      · intro entries hsz directoryPath hd1 hd2 b hb
        cases entries with
        | nil =>
            rw [traverseEntries_nil] at hb
            simp at hb
        | cons entry rest =>
            rw [traverseEntries_cons] at hb
            have h1 : sizeOf entry < n := by
              simp only [List.cons.sizeOf_spec] at hsz
              omega
            have h2 : sizeOf rest < n := by
              simp only [List.cons.sizeOf_spec] at hsz
              omega
            rcases List.mem_append.mp hb with h | h
            · exact ih.1 entry h1 _ hd1 hd2 b h
            · exact ih.2.1 rest h2 _ hd1 hd2 b h
      · intro node hsz directoryPath hd1 hd2 b hb
        cases node with
        | file content =>
            rw [traverse_file] at hb
            simp at hb
        | dir entries =>
            rw [traverse_dir] at hb
            have hes : sizeOf entries < n := by
              simp only [FSNode.dir.sizeOf_spec] at hsz
              omega
            exact ih.2.1 entries hes _ hd1 hd2 b hb
        | unreadableDir =>
            rw [traverse_unreadable] at hb
            simp at hb

/-- Top-level wrapper of `blocks_deeper_aux`. -/
theorem blocks_deeper (cfg : Config) (directoryPath : String) (node : FSNode)
    (h1 : directoryPath ≠ "") (h2 : directoryPath ≠ ".") :
    ∀ b ∈ traverseDirectoryRecursively cfg directoryPath node,
      directoryPath.length < (Block.relPath b).length :=
  (blocks_deeper_aux cfg (sizeOf node + 1)).2.2 node (Nat.lt_succ_self _) _ h1 h2

/-- C10: for a directory entry with a genuine dirent name, the per-entry
handler appends at most one block carrying the entry's own path, never both
a content block and a skip block for it, and when the entry is a directory
never a content block for it — the four branches are mutually exclusive and
blocks from a descent all carry strictly longer paths. -/
theorem per_entry_at_most_one_block (cfg : Config) (directoryPath name : String)
    (node : FSNode) (h1 : name ≠ "") (h2 : name ≠ ".") :
    ((processEntry cfg directoryPath (name, node)).filter
        (fun b => Block.relPath b == joinPath directoryPath name)).length ≤ 1 ∧
    (∀ c r,
        ¬(Block.content (joinPath directoryPath name) c ∈
            processEntry cfg directoryPath (name, node) ∧
          Block.skip (joinPath directoryPath name) r ∈
            processEntry cfg directoryPath (name, node))) ∧
    (∀ entries, node = FSNode.dir entries →
        ∀ c, Block.content (joinPath directoryPath name) c ∉
          processEntry cfg directoryPath (name, node)) := by
  obtain ⟨hq1, hqd⟩ := joinPath_ne directoryPath name h1 h2
  have hmain : processEntry cfg directoryPath (name, node) = [] ∨
      (∃ r, processEntry cfg directoryPath (name, node) =
        [Block.skip (joinPath directoryPath name) r]) ∨
      ((∀ es, node ≠ FSNode.dir es) ∧ ∃ c,
        processEntry cfg directoryPath (name, node) =
          [Block.content (joinPath directoryPath name) c]) ∨
      (∀ b ∈ processEntry cfg directoryPath (name, node),
        (joinPath directoryPath name).length < (Block.relPath b).length) := by
    cases hx : isExcluded cfg.excludePatterns (joinPath directoryPath name) with
    | true =>
        rw [processEntry_excluded cfg directoryPath name node hx]
        split
        · exact Or.inr (Or.inl ⟨_, rfl⟩)
        · exact Or.inl rfl
    | false =>
        cases node with
        | file content =>
            rw [processEntry_file cfg directoryPath name content hx]
            split
            · exact Or.inr (Or.inr (Or.inl ⟨fun es h => FSNode.noConfusion h,
                _, rfl⟩))
            · split
              · exact Or.inr (Or.inl ⟨_, rfl⟩)
              · exact Or.inl rfl
        | dir entries =>
            rw [processEntry_dirNode cfg directoryPath name entries hx]
            split
            · refine Or.inr (Or.inr (Or.inr ?_))
              intro b hb
              rw [← traverse_dir] at hb
              exact blocks_deeper cfg _ _ hq1 hqd b hb
            · exact Or.inl rfl
        | unreadableDir =>
            rw [processEntry_unreadable cfg directoryPath name hx]
            exact Or.inl rfl
  refine ⟨?_, ?_, ?_⟩
  · rcases hmain with he | ⟨r, he⟩ | ⟨_, c, he⟩ | hdeep
    · rw [he]
      simp
    · rw [he]
      exact List.length_filter_le _ _
    · rw [he]
      exact List.length_filter_le _ _
    · have hfe : (processEntry cfg directoryPath (name, node)).filter
          (fun b => Block.relPath b == joinPath directoryPath name) = [] := by
        rw [List.filter_eq_nil_iff]
        intro b hb hbe
        have hlt := hdeep b hb
        have heq : Block.relPath b = joinPath directoryPath name :=
          eq_of_beq hbe
        rw [heq] at hlt
        omega
      rw [hfe]
      simp
  · intro c r ⟨hc, hs⟩
    rcases hmain with he | ⟨r2, he⟩ | ⟨_, c2, he⟩ | hdeep
    · rw [he] at hc
      simp at hc
    · rw [he] at hc
      simp at hc
    · rw [he] at hs
      simp at hs
    · have hlt := hdeep _ hc
      simp [Block.relPath] at hlt
  · intro entries hne c hc
    subst hne
    rcases hmain with he | ⟨r2, he⟩ | ⟨hnd, c2, he⟩ | hdeep
    · rw [he] at hc
      simp at hc
    · rw [he] at hc
      simp at hc
    · exact hnd entries rfl
    · have hlt := hdeep _ hc
      simp [Block.relPath] at hlt

/-- Closed instance of C10 at a concrete file entry. -/
theorem per_entry_at_most_one_block_witness :
    ((processEntry defaultConfig "proj" ("a.js", FSNode.file "x")).filter
        (fun b => Block.relPath b == joinPath "proj" "a.js")).length ≤ 1 :=
  (per_entry_at_most_one_block defaultConfig "proj" "a.js" (FSNode.file "x")
    (by decide) (by decide)).1

end Vomitorium
